import Mathlib

deriving instance DecidableEq for Except

/-!
Verification of the in-memory contact directory (`task1.py`):
`Field`/`Name`/`Phone` validated values, `Record` (a name plus an ordered
list of phones) and `AddressBook` (an insertion-ordered string-keyed map of
records).  Python strings are modelled as lists of characters (Python code
points correspond to Lean `Char` scalar values), the two `ValueError` sites
as an explicit error type carrying the message, and every mutating method as
a pure function returning the new state (or `Except` when the method can
raise).
-/

namespace Task1

/-- A Python string: a sequence of code points. -/
abbrev PyStr := List Char

/-- The single Python error kind raised by the source (`ValueError`),
carrying its message. -/
inductive PyErr where
  | valueError (msg : PyStr)
deriving DecidableEq, Repr

/-- The message of the `ValueError` raised by `Phone.__init__` on invalid
input (the spec's `InvalidFormat` error kind). -/
def invalidPhoneMsg : PyStr :=
  "Невірний формат номера телефону. Очікується 10 цифр.".toList

/-- The spec's `InvalidFormat` failure: the exact error raised by
`Phone.__init__`. -/
def phoneFormatError : PyErr := .valueError invalidPhoneMsg

/-- The message of the `ValueError` raised by `Record.edit_phone` when the
old number is absent (the spec's `NotFound` error kind): the Python
f-string interpolating the missing number and the contact name. -/
def notFoundMsg (oldPhone contactName : PyStr) : PyStr :=
  "Номер ".toList ++ oldPhone ++ " не знайдено у контакті ".toList
    ++ contactName ++ ".".toList

/-- Character-level model of Python `str.isdigit`.  Python's `isdigit`
accepts every character with the Unicode `Numeric_Type=Decimal` or
`Numeric_Type=Digit` property, not only the ASCII digits.  This model is
exact on ASCII and on the listed non-ASCII ranges (Arabic-Indic, extended
Arabic-Indic, Devanagari and fullwidth decimal digits, and the Latin-1
superscripts); the remaining Unicode digit characters, none of which occur
in this development, behave exactly like the listed non-ASCII ones in every
statement below. -/
def pyIsDigitChar (c : Char) : Bool :=
  c.isDigit
    || (0x660 ≤ c.toNat && c.toNat ≤ 0x669)
    || (0x6F0 ≤ c.toNat && c.toNat ≤ 0x6F9)
    || (0x966 ≤ c.toNat && c.toNat ≤ 0x96F)
    || (0xFF10 ≤ c.toNat && c.toNat ≤ 0xFF19)
    || c = '¹' || c = '²' || c = '³'

/-- Model of Python `str.isdigit`: true when the string is nonempty and
every character is a digit character. -/
def pyIsDigit (s : PyStr) : Bool :=
  !s.isEmpty && s.all pyIsDigitChar

/-- `Phone._is_valid`: the number consists only of digits and has length
10 (`value.isdigit() and len(value) == 10`). -/
def Phone.isValid (value : PyStr) : Bool :=
  pyIsDigit value && value.length == 10

/-- `Phone.__init__`: validates and stores the string verbatim; raises
`ValueError` (the `InvalidFormat` kind) when `_is_valid` rejects it.  A
`Phone` object is modelled by its stored `value`. -/
def mkPhone (value : PyStr) : Except PyErr PyStr :=
  if Phone.isValid value then .ok value else .error phoneFormatError

/-- `Record`: a contact name (a `Name` field stores its string verbatim,
with no validation) and the ordered list of phone values. -/
structure Record where
  name : PyStr
  phones : List PyStr
deriving DecidableEq, Repr

/-- `Record.__init__`: wraps the name, starts with an empty phone list. -/
def Record.make (name : PyStr) : Record := ⟨name, []⟩

/-- `Record.add_phone`: constructs a `Phone` (which may raise) and appends
it to the end of `phones`. -/
def Record.addPhone (r : Record) (phone : PyStr) : Except PyErr Record :=
  (mkPhone phone).map fun p => { r with phones := r.phones ++ [p] }

/-- `Record.find_phone`: linear scan of `phones` in order, returning the
first element whose value equals `phone`, else `none`. -/
def Record.findPhone (r : Record) (phone : PyStr) : Option PyStr :=
  r.phones.find? fun ph => ph == phone

/-- Python `list.remove` on the phone list: drops the first occurrence of
`p` (all `Phone` objects in the list are distinct objects, so removing the
object returned by `find_phone` drops exactly the first value match). -/
def removeFirst : List PyStr → PyStr → List PyStr
  | [], _ => []
  | x :: xs, p => if x = p then xs else x :: removeFirst xs p

/-- `Record.remove_phone`: removes the phone found by `find_phone` when
present; does nothing when absent. -/
def Record.removePhone (r : Record) (phone : PyStr) : Record :=
  match r.findPhone phone with
  | some _ => { r with phones := removeFirst r.phones phone }
  | none => r

/-- `Record.edit_phone`: looks up the old number (raising the not-found
`ValueError` when absent), then constructs the new `Phone` (which may
raise `InvalidFormat`), and only then overwrites the list slot at the
index of the found object (`list.index` finds the first value match). -/
def Record.editPhone (r : Record) (oldPhone newPhone : PyStr) :
    Except PyErr Record :=
  match r.findPhone oldPhone with
  | none => .error (.valueError (notFoundMsg oldPhone r.name))
  | some phoneObj =>
    match mkPhone newPhone with
    | .error e => .error e
    | .ok newObj =>
      .ok { r with
            phones := r.phones.set (r.phones.findIdx fun ph => ph == phoneObj)
              newObj }

/-- The sentinel used by `Record.__str__` when the phone list is empty. -/
def noPhonesSentinel : PyStr := "немає номерів".toList

/-- `Record.__str__`: the human-readable line `Contact name: ...,
phones: ...`, joining the phones with `; ` or showing the sentinel when
the list is empty. -/
def Record.describe (r : Record) : PyStr :=
  "Contact name: ".toList ++ r.name ++ ", phones: ".toList
    ++ (if r.phones.isEmpty then noPhonesSentinel
        else List.intercalate ("; ".toList) r.phones)

/-- `AddressBook` (a `UserDict`): the underlying `data` dict, modelled as
an insertion-ordered association list; every book built through the public
API has pairwise-distinct keys. -/
structure AddressBook where
  data : List (PyStr × Record)
deriving DecidableEq, Repr

/-- Python dict assignment `d[k] = v`: overwrite the value at an existing
key in place, else append a new entry. -/
def dictSet (d : List (PyStr × Record)) (k : PyStr) (v : Record) :
    List (PyStr × Record) :=
  if (d.find? fun e => e.1 == k).isSome then
    d.map fun e => if e.1 = k then (e.1, v) else e
  else d ++ [(k, v)]

/-- `AddressBook.add_record`: `self.data[record.name.value] = record`. -/
def AddressBook.addRecord (b : AddressBook) (r : Record) : AddressBook :=
  ⟨dictSet b.data r.name r⟩

/-- `AddressBook.find`: `self.data.get(name)`. -/
def AddressBook.find (b : AddressBook) (name : PyStr) : Option Record :=
  (b.data.find? fun e => e.1 == name).map Prod.snd

/-- `AddressBook.delete`: `if name in self.data: del self.data[name]`
(a dict holds at most one entry per key, so deleting drops every entry
whose key equals `name`). -/
def AddressBook.delete (b : AddressBook) (name : PyStr) : AddressBook :=
  if (b.data.find? fun e => e.1 == name).isSome then
    ⟨b.data.filter fun e => decide (e.1 ≠ name)⟩
  else b

/-- The records reachable through the public `Record` API: construct with
a name, then any sequence of successful `add_phone`, `remove_phone`,
`edit_phone` calls. -/
inductive ReachableRecord : Record → Prop where
  | make (name : PyStr) : ReachableRecord (Record.make name)
  | add {r r' : Record} {p : PyStr} :
      ReachableRecord r → r.addPhone p = .ok r' → ReachableRecord r'
  | remove {r : Record} (p : PyStr) :
      ReachableRecord r → ReachableRecord (r.removePhone p)
  | edit {r r' : Record} {oldPhone newPhone : PyStr} :
      ReachableRecord r → r.editPhone oldPhone newPhone = .ok r' →
      ReachableRecord r'

/-- The address books reachable through the public `AddressBook` API:
construct empty, then any sequence of `add_record` and `delete` calls. -/
inductive ReachableBook : AddressBook → Prop where
  | empty : ReachableBook ⟨[]⟩
  | addRec {b : AddressBook} (r : Record) :
      ReachableBook b → ReachableBook (b.addRecord r)
  | del {b : AddressBook} (n : PyStr) :
      ReachableBook b → ReachableBook (b.delete n)

/-! ### Helper lemmas about equality search over lists of strings -/

/-- `find?` with an equality test can only return the searched value. -/
theorem find_beq_some {l : List PyStr} {q x : PyStr}
    (h : l.find? (fun a => a == q) = some x) : x = q := by
  simpa using List.find?_some h

/-- `find?` with an equality test misses exactly when the value is absent. -/
theorem find_beq_none_iff {l : List PyStr} {q : PyStr} :
    l.find? (fun a => a == q) = none ↔ q ∉ l := by
  rw [List.find?_eq_none]
  constructor
  · intro h hq
    exact h q hq (by simp)
  · intro h x hx hb
    exact h (beq_iff_eq.mp hb ▸ hx)

/-- `find?` with an equality test hits a present value and returns it. -/
theorem find_beq_some_of_mem {l : List PyStr} {q : PyStr} (h : q ∈ l) :
    l.find? (fun a => a == q) = some q := by
  cases hf : l.find? (fun a => a == q) with
  | none => exact absurd h (find_beq_none_iff.mp hf)
  | some x =>
    obtain rfl : x = q := find_beq_some hf
    rfl

/-- The hit of `find?` with an equality test sits at a position holding the
value, and no earlier position holds it. -/
theorem find_beq_first {l : List PyStr} {q x : PyStr}
    (h : l.find? (fun a => a == q) = some x) :
    x = q ∧ ∃ i : Nat, l[i]? = some q ∧ ∀ j : Nat, j < i → l[j]? ≠ some q := by
  refine ⟨find_beq_some h, ?_⟩
  induction l with
  | nil => simp [List.find?] at h
  | cons a l ih =>
    by_cases ha : a = q
    · exact ⟨0, by simp [ha], fun j hj => absurd hj (Nat.not_lt_zero j)⟩
    · have hb : (a == q) = false := beq_eq_false_iff_ne.mpr ha
      rw [List.find?_cons, hb] at h
      obtain ⟨i, h1, h2⟩ := ih h
      refine ⟨i + 1, by simpa using h1, ?_⟩
      intro j hj
      cases j with
      | zero => simpa using ha
      | succ j => simpa using h2 j (Nat.lt_of_succ_lt_succ hj)

/-- `findIdx` with an equality test on a list containing the value: the
result is in range, the slot there holds the value, and no earlier slot
does. -/
theorem findIdx_beq_first {l : List PyStr} {q : PyStr} (h : q ∈ l) :
    l.findIdx (fun a => a == q) < l.length ∧
    l[l.findIdx (fun a => a == q)]? = some q ∧
    ∀ j : Nat, j < l.findIdx (fun a => a == q) → l[j]? ≠ some q := by
  induction l with
  | nil => cases h
  | cons a l ih =>
    by_cases ha : a = q
    · have h0 : (a :: l).findIdx (fun a => a == q) = 0 := by
        rw [List.findIdx_cons]
        simp [ha]
      rw [h0]
      exact ⟨Nat.succ_pos _, by simp [ha], fun j hj => absurd hj (Nat.not_lt_zero j)⟩
    · have hb : (a == q) = false := beq_eq_false_iff_ne.mpr ha
      have hs : (a :: l).findIdx (fun a => a == q) = l.findIdx (fun a => a == q) + 1 := by
        rw [List.findIdx_cons, hb]
        rfl
      have hq : q ∈ l := by
        rcases List.mem_cons.mp h with h' | h'
        · exact absurd h'.symm ha
        · exact h'
      obtain ⟨h1, h2, h3⟩ := ih hq
      rw [hs]
      refine ⟨by simpa using Nat.succ_lt_succ h1, by simpa using h2, ?_⟩
      intro j hj
      cases j with
      | zero => simpa using ha
      | succ j => simpa using h3 j (Nat.lt_of_succ_lt_succ hj)

/-- `removeFirst` on a list containing `p` drops exactly the slot of the
first occurrence. -/
theorem removeFirst_take_drop {l : List PyStr} {p : PyStr} (h : p ∈ l) :
    ∃ i : Nat, l[i]? = some p ∧ (∀ j : Nat, j < i → l[j]? ≠ some p) ∧
      removeFirst l p = l.take i ++ l.drop (i + 1) := by
  induction l with
  | nil => cases h
  | cons a l ih =>
    by_cases ha : a = p
    · refine ⟨0, by simp [ha], fun j hj => absurd hj (Nat.not_lt_zero j), ?_⟩
      simp [removeFirst, ha]
    · have hp : p ∈ l := by
        rcases List.mem_cons.mp h with h' | h'
        · exact absurd h'.symm ha
        · exact h'
      obtain ⟨i, h1, h2, h3⟩ := ih hp
      refine ⟨i + 1, by simpa using h1, ?_, ?_⟩
      · intro j hj
        cases j with
        | zero => simpa using ha
        | succ j => simpa using h2 j (Nat.lt_of_succ_lt_succ hj)
      · simp [removeFirst, ha, h3]

/-- Removing an element cannot create new list members. -/
theorem mem_of_mem_removeFirst {l : List PyStr} {p x : PyStr}
    (h : x ∈ removeFirst l p) : x ∈ l := by
  induction l with
  | nil => simp [removeFirst] at h
  | cons a l ih =>
    by_cases ha : a = p
    · rw [removeFirst, if_pos ha] at h
      exact List.mem_cons_of_mem _ h
    · rw [removeFirst, if_neg ha] at h
      rcases List.mem_cons.mp h with h' | h'
      · exact h' ▸ List.mem_cons_self _ _
      · exact List.mem_cons_of_mem _ (ih h')

/-! ### Helper lemmas about the method calls -/

/-- A successful `add_phone` validated the number and appended it. -/
theorem addPhone_ok {r r' : Record} {p : PyStr} (h : r.addPhone p = .ok r') :
    Phone.isValid p = true ∧ r' = { r with phones := r.phones ++ [p] } := by
  unfold Record.addPhone mkPhone at h
  by_cases hv : Phone.isValid p
  · rw [if_pos hv] at h
    exact ⟨hv, (Except.ok.inj h).symm⟩
  · rw [if_neg hv] at h
    cases h

/-- A successful `edit_phone` validated the new number and overwrote the
slot `list.index` finds for the old one. -/
theorem editPhone_ok {r r' : Record} {oldPhone newPhone : PyStr}
    (h : r.editPhone oldPhone newPhone = .ok r') :
    Phone.isValid newPhone = true ∧ oldPhone ∈ r.phones ∧
      r' = { r with
             phones := r.phones.set (r.phones.findIdx fun a => a == oldPhone)
               newPhone } := by
  unfold Record.editPhone at h
  cases hf : r.findPhone oldPhone with
  | none => rw [hf] at h; cases h
  | some x =>
    rw [hf] at h
    have hx : x = oldPhone := find_beq_some hf
    subst hx
    have hmem : x ∈ r.phones := List.mem_of_find?_eq_some hf
    unfold mkPhone at h
    by_cases hv : Phone.isValid newPhone
    · rw [if_pos hv] at h
      exact ⟨hv, hmem, (Except.ok.inj h).symm⟩
    · rw [if_neg hv] at h
      cases h

/-- `find_phone` of a present number returns it. -/
theorem findPhone_eq_some_of_mem {r : Record} {p : PyStr} (h : p ∈ r.phones) :
    r.findPhone p = some p :=
  find_beq_some_of_mem h

/-- `find_phone` misses exactly the absent numbers. -/
theorem findPhone_none_iff {r : Record} {p : PyStr} :
    r.findPhone p = none ↔ p ∉ r.phones :=
  find_beq_none_iff

/-! ### Helper lemmas about the dict model -/

/-- An `Option` that is not `isSome` is `none`. -/
theorem eq_none_of_not_isSome {α : Type} {o : Option α}
    (h : ¬ o.isSome = true) : o = none := by
  cases o with
  | none => rfl
  | some x => simp at h

/-- Overwriting the value at a present key: the key search then hits the
new pair. -/
theorem find_beq_mapSet (d : List (PyStr × Record)) (k : PyStr) (v : Record)
    (h : (d.find? fun e => e.1 == k).isSome = true) :
    ((d.map fun e => if e.1 = k then (e.1, v) else e).find? fun e => e.1 == k)
      = some (k, v) := by
  induction d with
  | nil => simp [List.find?] at h
  | cons e d ih =>
    by_cases he : e.1 = k
    · simp only [List.map_cons, if_pos he]
      have hb : ((e.1, v).1 == k) = true := by simpa using he
      rw [List.find?_cons, hb, he]
    · have hb : (e.1 == k) = false := beq_eq_false_iff_ne.mpr he
      rw [List.find?_cons, hb] at h
      simp only [List.map_cons, if_neg he]
      rw [List.find?_cons, hb]
      exact ih h

/-- Overwriting the value at key `k` does not disturb the search for a
different key. -/
theorem find_beq_map_other (d : List (PyStr × Record)) (k q : PyStr)
    (v : Record) (hq : q ≠ k) :
    ((d.map fun e => if e.1 = k then (e.1, v) else e).find? fun e => e.1 == q)
      = d.find? fun e => e.1 == q := by
  induction d with
  | nil => simp
  | cons e d ih =>
    simp only [List.map_cons]
    by_cases hek : e.1 = k
    · rw [if_pos hek]
      have hne : e.1 ≠ q := by rw [hek]; exact Ne.symm hq
      have hb : ((e.1, v).1 == q) = false := beq_eq_false_iff_ne.mpr hne
      have hb' : (e.1 == q) = false := beq_eq_false_iff_ne.mpr hne
      rw [List.find?_cons, hb, List.find?_cons, hb']
      exact ih
    · rw [if_neg hek]
      rw [List.find?_cons, List.find?_cons]
      cases hb : (e.1 == q) with
      | true => rfl
      | false => exact ih

/-- Dropping the entries at key `n` does not disturb the search for a
different key. -/
theorem find_beq_filter_other (d : List (PyStr × Record)) (n q : PyStr)
    (hq : q ≠ n) :
    ((d.filter fun e => decide (e.1 ≠ n)).find? fun e => e.1 == q)
      = d.find? fun e => e.1 == q := by
  induction d with
  | nil => simp
  | cons e d ih =>
    by_cases hen : e.1 = n
    · have hb : (e.1 == q) = false :=
        beq_eq_false_iff_ne.mpr (hen ▸ Ne.symm hq)
      rw [List.filter_cons_of_neg (by simp [hen])]
      rw [List.find?_cons, hb]
      exact ih
    · rw [List.filter_cons_of_pos (by simp [hen])]
      rw [List.find?_cons, List.find?_cons]
      cases hb : (e.1 == q) with
      | true => rfl
      | false => exact ih

/-- After dropping the entries at key `n`, the search for `n` misses. -/
theorem find_beq_filter_self (d : List (PyStr × Record)) (n : PyStr) :
    ((d.filter fun e => decide (e.1 ≠ n)).find? fun e => e.1 == n) = none := by
  rw [List.find?_eq_none]
  intro x hx
  rw [List.mem_filter] at hx
  simpa using hx.2

/-- `dict[k] = v` with `k = v.name` preserves the key-equals-name
invariant. -/
theorem dictSet_key_sound {d : List (PyStr × Record)} {k : PyStr} {v : Record}
    (hd : ∀ e ∈ d, e.1 = e.2.name) (hk : k = v.name) :
    ∀ e ∈ dictSet d k v, e.1 = e.2.name := by
  intro e he
  unfold dictSet at he
  split at he
  · obtain ⟨e₀, he₀, rfl⟩ := List.mem_map.mp he
    by_cases h0 : e₀.1 = k
    · rw [if_pos h0]
      exact h0.trans hk
    · rw [if_neg h0]
      exact hd e₀ he₀
  · rcases List.mem_append.mp he with h' | h'
    · exact hd e h'
    · rw [List.mem_singleton.mp h']
      exact hk

/-- `delete` preserves the key-equals-name invariant. -/
theorem delete_key_sound {b : AddressBook} {n : PyStr}
    (hd : ∀ e ∈ b.data, e.1 = e.2.name) :
    ∀ e ∈ (b.delete n).data, e.1 = e.2.name := by
  intro e he
  unfold AddressBook.delete at he
  split at he
  · exact hd e (List.mem_filter.mp he).1
  · exact hd e he

/-- `add_record` makes the record retrievable under its own name. -/
theorem addRecord_find_self (b : AddressBook) (r : Record) :
    (b.addRecord r).find r.name = some r := by
  show ((dictSet b.data r.name r).find? fun e => e.1 == r.name).map Prod.snd
    = some r
  unfold dictSet
  by_cases hs : (b.data.find? fun e => e.1 == r.name).isSome = true
  · rw [if_pos hs, find_beq_mapSet b.data r.name r hs]
    rfl
  · rw [if_neg hs, List.find?_append, eq_none_of_not_isSome hs]
    simp [List.find?]

/-! ### The claims -/

/-- Claim C1, counterexample to the claim as stated: the ten
Arabic-Indic digits form a string of length 10 none of whose characters
is an ASCII digit, yet `Phone` construction succeeds on it, because
Python `str.isdigit` accepts every Unicode digit character.  So
construction succeeding is not equivalent to the input being 10 ASCII
digits. -/
theorem C1_claim_counterexample :
    mkPhone ("٠١٢٣٤٥٦٧٨٩".toList) = .ok ("٠١٢٣٤٥٦٧٨٩".toList) ∧
    ("٠١٢٣٤٥٦٧٨٩".toList).length = 10 ∧
    ("٠١٢٣٤٥٦٧٨٩".toList).all Char.isDigit = false := by
  decide

/-- Claim C1 as amended: constructing a Phone-kind value from `s`
succeeds if and only if `s` has length exactly 10 and `s.isdigit()` holds
in Python's sense — every character is a Unicode digit character, ASCII
or not, and `s` is nonempty.  On success the stored value equals `s`
verbatim; on every other input construction fails with the
`InvalidFormat` error. -/
theorem C1_phone_validation (s : PyStr) :
    (mkPhone s = .ok s ↔ pyIsDigit s = true ∧ s.length = 10) ∧
    (∀ t, mkPhone s = .ok t → t = s) ∧
    (¬ (pyIsDigit s = true ∧ s.length = 10) →
      mkPhone s = .error phoneFormatError) := by
  unfold mkPhone Phone.isValid
  by_cases hv : (pyIsDigit s && s.length == 10) = true
  · rw [if_pos hv]
    have hv' : pyIsDigit s = true ∧ s.length = 10 := by simpa using hv
    exact ⟨⟨fun _ => hv', fun _ => rfl⟩,
      fun t ht => (Except.ok.inj ht).symm,
      fun hc => absurd hv' hc⟩
  · rw [if_neg hv]
    have hv' : ¬ (pyIsDigit s = true ∧ s.length = 10) := by simpa using hv
    exact ⟨⟨fun h => Except.noConfusion h, fun h => absurd h hv'⟩,
      fun t ht => Except.noConfusion ht,
      fun _ => rfl⟩

/-- Witness for C1: the concrete 10-digit string `1234567890` is
accepted and stored verbatim. -/
theorem C1_phone_validation_witness :
    mkPhone ("1234567890".toList) = .ok ("1234567890".toList) :=
  (C1_phone_validation ("1234567890".toList)).1.mpr (by decide)

/-- Claim C2: when the record holds a phone equal to `oldPhone` and
`newPhone` fails the phone validation, `edit_phone` raises the
`InvalidFormat` error.  The new `Phone` is constructed before any list
mutation, and in this pure embedding an erroring call returns no new
record at all, so the caller's record — with the old phone still at its
original position — is left untouched. -/
theorem C2_edit_invalid_new_fails (r : Record) (oldPhone newPhone : PyStr)
    (hmem : oldPhone ∈ r.phones) (hinv : Phone.isValid newPhone = false) :
    r.editPhone oldPhone newPhone = .error phoneFormatError := by
  unfold Record.editPhone
  rw [findPhone_eq_some_of_mem hmem]
  unfold mkPhone
  rw [if_neg (by simp [hinv])]

/-- Witness for C2: editing `1234567890` into the three-character string
`123` on a record holding `1234567890` raises the format error. -/
theorem C2_edit_invalid_new_fails_witness :
    Record.editPhone ⟨"John".toList, ["1234567890".toList]⟩
      ("1234567890".toList) ("123".toList) = .error phoneFormatError :=
  C2_edit_invalid_new_fails ⟨"John".toList, ["1234567890".toList]⟩
    ("1234567890".toList) ("123".toList) (by decide) (by decide)

/-- Claim C3: when no phone equals `oldPhone`, `edit_phone` raises the
`NotFound` error, whose message contains both the missing number and the
contact's name; no new record is produced, so the phone list is
unchanged. -/
theorem C3_edit_absent_not_found (r : Record) (oldPhone newPhone : PyStr)
    (h : oldPhone ∉ r.phones) :
    r.editPhone oldPhone newPhone
        = .error (.valueError (notFoundMsg oldPhone r.name)) ∧
    (∃ u v : PyStr, notFoundMsg oldPhone r.name = u ++ oldPhone ++ v) ∧
    (∃ u v : PyStr, notFoundMsg oldPhone r.name = u ++ r.name ++ v) := by
  refine ⟨?_, ?_, ?_⟩
  · unfold Record.editPhone
    rw [findPhone_none_iff.mpr h]
  · exact ⟨"Номер ".toList,
      " не знайдено у контакті ".toList ++ r.name ++ ".".toList,
      by simp [notFoundMsg]⟩
  · exact ⟨"Номер ".toList ++ oldPhone ++ " не знайдено у контакті ".toList,
      ".".toList,
      by simp [notFoundMsg]⟩

/-- Witness for C3: editing on a record with an empty phone list raises
the not-found error, and the message contains the number and the name. -/
theorem C3_edit_absent_not_found_witness :
    Record.editPhone ⟨"John".toList, []⟩ ("1234567890".toList)
        ("1112223333".toList)
      = .error (.valueError (notFoundMsg ("1234567890".toList)
          ("John".toList))) ∧
    (∃ u v : PyStr, notFoundMsg ("1234567890".toList) ("John".toList)
      = u ++ "1234567890".toList ++ v) ∧
    (∃ u v : PyStr, notFoundMsg ("1234567890".toList) ("John".toList)
      = u ++ "John".toList ++ v) :=
  C3_edit_absent_not_found ⟨"John".toList, []⟩ ("1234567890".toList)
    ("1112223333".toList) (by decide)

/-- Claim C4: with `oldPhone` present and `newPhone` valid, `edit_phone`
succeeds and overwrites exactly the slot of the first occurrence of
`oldPhone`, leaving the length and every other slot unchanged (with
duplicates, only the first occurrence is replaced). -/
theorem C4_edit_replaces_first_occurrence (r : Record)
    (oldPhone newPhone : PyStr) (h1 : oldPhone ∈ r.phones)
    (h2 : Phone.isValid newPhone = true) :
    ∃ (r' : Record) (i : Nat),
      r.editPhone oldPhone newPhone = .ok r' ∧
      r'.name = r.name ∧
      r.phones[i]? = some oldPhone ∧
      (∀ j : Nat, j < i → r.phones[j]? ≠ some oldPhone) ∧
      r'.phones.length = r.phones.length ∧
      r'.phones[i]? = some newPhone ∧
      (∀ j : Nat, j ≠ i → r'.phones[j]? = r.phones[j]?) := by
  have hf : r.findPhone oldPhone = some oldPhone :=
    findPhone_eq_some_of_mem h1
  have heq : r.editPhone oldPhone newPhone
      = .ok { r with
              phones := r.phones.set
                (r.phones.findIdx fun a => a == oldPhone) newPhone } := by
    unfold Record.editPhone
    rw [hf]
    unfold mkPhone
    rw [if_pos (by simp [h2])]
  obtain ⟨hlt, hat, hbefore⟩ := findIdx_beq_first h1
  refine ⟨_, r.phones.findIdx (fun a => a == oldPhone), heq, rfl, hat,
    hbefore, by simp, ?_, ?_⟩
  · simp [List.getElem?_set, hlt]
  · intro j hj
    exact List.getElem?_set_ne (Ne.symm hj)

/-- Witness for C4: the end-to-end scenario — editing `1234567890` into
`1112223333` on John's record with phones `1234567890`, `5555555555`. -/
theorem C4_edit_replaces_first_occurrence_witness :
    ∃ (r' : Record) (i : Nat),
      Record.editPhone
          ⟨"John".toList, ["1234567890".toList, "5555555555".toList]⟩
          ("1234567890".toList) ("1112223333".toList) = .ok r' ∧
      r'.name = "John".toList ∧
      ["1234567890".toList, "5555555555".toList][i]? = some ("1234567890".toList) ∧
      (∀ j : Nat, j < i →
        ["1234567890".toList, "5555555555".toList][j]? ≠ some ("1234567890".toList)) ∧
      r'.phones.length = 2 ∧
      r'.phones[i]? = some ("1112223333".toList) ∧
      (∀ j : Nat, j ≠ i →
        r'.phones[j]? = ["1234567890".toList, "5555555555".toList][j]?) :=
  C4_edit_replaces_first_occurrence
    ⟨"John".toList, ["1234567890".toList, "5555555555".toList]⟩
    ("1234567890".toList) ("1112223333".toList) (by decide) (by decide)

/-- Claim C5: a phone successfully added by `add_phone` is appended, and
`find_phone` then returns a value equal to it; in general `find_phone`
returns the first element of the phone sequence, in insertion order,
whose stored value equals the query exactly, and `none` when no element
matches. -/
theorem C5_find_after_add (r r' : Record) (p : PyStr)
    (h : r.addPhone p = .ok r') :
    r'.findPhone p = some p ∧
    ∀ (s : Record) (q : PyStr),
      (s.findPhone q = none ↔ q ∉ s.phones) ∧
      ∀ x, s.findPhone q = some x →
        x = q ∧ ∃ i : Nat, s.phones[i]? = some q ∧
          ∀ j : Nat, j < i → s.phones[j]? ≠ some q := by
  obtain ⟨-, rfl⟩ := addPhone_ok h
  exact ⟨findPhone_eq_some_of_mem (by simp),
    fun s q => ⟨findPhone_none_iff, fun x hx => find_beq_first hx⟩⟩

/-- Witness for C5: adding `9876543210` to a fresh record makes it
findable. -/
theorem C5_find_after_add_witness :
    Record.findPhone ⟨"Jane".toList, ["9876543210".toList]⟩
        ("9876543210".toList) = some ("9876543210".toList) :=
  (C5_find_after_add (Record.make ("Jane".toList))
    ⟨"Jane".toList, ["9876543210".toList]⟩ ("9876543210".toList)
    (by decide)).1

/-- Claim C6: deletion is total and never an error.  `remove_phone` on an
absent number is the identity, and on a present number drops exactly the
slot of the first occurrence; `AddressBook.delete` on an absent name is
the identity, and after any `delete name` a `find name` returns `none`. -/
theorem C6_deletion_total (r : Record) (p : PyStr) (b : AddressBook)
    (n : PyStr) :
    (p ∉ r.phones → r.removePhone p = r) ∧
    (p ∈ r.phones → ∃ i : Nat,
      r.phones[i]? = some p ∧ (∀ j : Nat, j < i → r.phones[j]? ≠ some p) ∧
      (r.removePhone p).name = r.name ∧
      (r.removePhone p).phones = r.phones.take i ++ r.phones.drop (i + 1)) ∧
    (b.find n = none → b.delete n = b) ∧
    (b.delete n).find n = none := by
  refine ⟨?_, ?_, ?_, ?_⟩
  · intro h
    unfold Record.removePhone
    rw [findPhone_none_iff.mpr h]
  · intro h
    obtain ⟨i, h1, h2, h3⟩ := removeFirst_take_drop h
    have hrw : r.removePhone p = { r with phones := removeFirst r.phones p } := by
      unfold Record.removePhone
      rw [findPhone_eq_some_of_mem h]
    exact ⟨i, h1, h2, by rw [hrw], by rw [hrw]; exact h3⟩
  · intro h
    have hn : b.data.find? (fun e => e.1 == n) = none := by
      unfold AddressBook.find at h
      exact Option.map_eq_none'.mp h
    unfold AddressBook.delete
    rw [hn]
    rfl
  · unfold AddressBook.delete
    by_cases hs : (b.data.find? fun e => e.1 == n).isSome = true
    · rw [if_pos hs]
      show ((b.data.filter fun e => decide (e.1 ≠ n)).find?
        fun e => e.1 == n).map Prod.snd = none
      rw [find_beq_filter_self]
      rfl
    · rw [if_neg hs]
      show (b.data.find? fun e => e.1 == n).map Prod.snd = none
      rw [eq_none_of_not_isSome hs]
      rfl

/-- Witness for C6: Jane's record, added and deleted — end-to-end
scenario 2 — plus a remove of the present phone `9876543210`. -/
theorem C6_deletion_total_witness :
    (("9876543210".toList ∉ [("9876543210".toList)]) →
      Record.removePhone ⟨"Jane".toList, ["9876543210".toList]⟩
        ("9876543210".toList) = ⟨"Jane".toList, ["9876543210".toList]⟩) ∧
    (("9876543210".toList ∈ [("9876543210".toList)]) → ∃ i : Nat,
      [("9876543210".toList)][i]? = some ("9876543210".toList) ∧
      (∀ j : Nat, j < i →
        [("9876543210".toList)][j]? ≠ some ("9876543210".toList)) ∧
      (Record.removePhone ⟨"Jane".toList, ["9876543210".toList]⟩
        ("9876543210".toList)).name = "Jane".toList ∧
      (Record.removePhone ⟨"Jane".toList, ["9876543210".toList]⟩
          ("9876543210".toList)).phones
        = [("9876543210".toList)].take i
            ++ [("9876543210".toList)].drop (i + 1)) ∧
    ((AddressBook.find ⟨[("Jane".toList,
          ⟨"Jane".toList, ["9876543210".toList]⟩)]⟩ ("Jane".toList) = none) →
      AddressBook.delete ⟨[("Jane".toList,
          ⟨"Jane".toList, ["9876543210".toList]⟩)]⟩ ("Jane".toList)
        = ⟨[("Jane".toList, ⟨"Jane".toList, ["9876543210".toList]⟩)]⟩) ∧
    (AddressBook.delete ⟨[("Jane".toList,
        ⟨"Jane".toList, ["9876543210".toList]⟩)]⟩ ("Jane".toList)).find
      ("Jane".toList) = none :=
  C6_deletion_total ⟨"Jane".toList, ["9876543210".toList]⟩
    ("9876543210".toList)
    ⟨[("Jane".toList, ⟨"Jane".toList, ["9876543210".toList]⟩)]⟩
    ("Jane".toList)

/-- Claim C7: in every address book reachable through the public API the
map key of each entry equals the stored record's name, and `add_record`
inserts or overwrites at the record's own name with no failure path —
after adding, looking the name up yields exactly the added record, also
when it silently replaced a previous one (last write wins). -/
theorem C7_key_name_invariant (b : AddressBook) (h : ReachableBook b)
    (r : Record) :
    (∀ e ∈ b.data, e.1 = e.2.name) ∧
    (b.addRecord r).find r.name = some r := by
  constructor
  · induction h with
    | empty => intro e he; simp at he
    | addRec rec hb ih => exact dictSet_key_sound ih rfl
    | del n hb ih => exact delete_key_sound ih
  · exact addRecord_find_self b r

/-- Witness for C7: the one-entry book holding Jane, reached by one
`add_record`, satisfies the key invariant, and re-adding a new record
under the same name wins. -/
theorem C7_key_name_invariant_witness :
    (∀ e ∈ (AddressBook.addRecord ⟨[]⟩
        ⟨"Jane".toList, ["9876543210".toList]⟩).data, e.1 = e.2.name) ∧
    ((AddressBook.addRecord ⟨[]⟩
        ⟨"Jane".toList, ["9876543210".toList]⟩).addRecord
      ⟨"Jane".toList, []⟩).find ("Jane".toList) = some ⟨"Jane".toList, []⟩ :=
  C7_key_name_invariant
    (AddressBook.addRecord ⟨[]⟩ ⟨"Jane".toList, ["9876543210".toList]⟩)
    (ReachableBook.addRec ⟨"Jane".toList, ["9876543210".toList]⟩
      ReachableBook.empty)
    ⟨"Jane".toList, []⟩

/-- Claim C8: `__str__` renders the single line `Contact name: <name>,
phones: <...>` with the phone values joined by `; ` in sequence order,
and with the nonempty sentinel phrase in place of the join when the
phone list is empty. -/
theorem C8_describe_line (r : Record) :
    (r.phones ≠ [] → r.describe =
      "Contact name: ".toList ++ r.name ++ ", phones: ".toList
        ++ List.intercalate ("; ".toList) r.phones) ∧
    (r.phones = [] → noPhonesSentinel ≠ [] ∧
      r.describe = "Contact name: ".toList ++ r.name ++ ", phones: ".toList
        ++ noPhonesSentinel) := by
  constructor
  · intro h
    unfold Record.describe
    rw [if_neg (by simp [h])]
  · intro h
    refine ⟨by simp [noPhonesSentinel], ?_⟩
    unfold Record.describe
    rw [if_pos (by simp [h])]

/-- Witness for C8: scenario 1's record renders its two phones joined by
`; `, and a phoneless record shows the sentinel. -/
theorem C8_describe_line_witness :
    Record.describe ⟨"John".toList, []⟩
      = "Contact name: ".toList ++ "John".toList ++ ", phones: ".toList
        ++ noPhonesSentinel :=
  ((C8_describe_line ⟨"John".toList, []⟩).2 rfl).2

/-- Claim C9: every record reachable through the public API holds only
phones satisfying the validation rule of `Phone._is_valid` — each of
`add_phone`, `remove_phone` and `edit_phone` preserves the invariant,
because validation happens at insertion and edit time. -/
theorem C9_reachable_phones_valid (r : Record) (h : ReachableRecord r) :
    ∀ p ∈ r.phones, Phone.isValid p = true := by
  induction h with
  | make name => intro p hp; simp [Record.make] at hp
  | add hr heq ih =>
    obtain ⟨hv, rfl⟩ := addPhone_ok heq
    intro p hp
    rcases List.mem_append.mp hp with h' | h'
    · exact ih p h'
    · rw [List.mem_singleton.mp h']
      exact hv
  | remove p hr ih =>
    intro x hx
    unfold Record.removePhone at hx
    split at hx
    · exact ih x (mem_of_mem_removeFirst hx)
    · exact ih x hx
  | edit hr heq ih =>
    obtain ⟨hv, hmem, rfl⟩ := editPhone_ok heq
    intro x hx
    rcases List.mem_or_eq_of_mem_set hx with h' | h'
    · exact ih x h'
    · rw [h']
      exact hv

/-- Witness for C9: in the record reached by adding `1234567890` to a
fresh John, that stored phone satisfies the validation rule. -/
theorem C9_reachable_phones_valid_witness :
    Phone.isValid ("1234567890".toList) = true :=
  C9_reachable_phones_valid ⟨"John".toList, ["1234567890".toList]⟩
    (@ReachableRecord.add (Record.make ("John".toList))
      ⟨"John".toList, ["1234567890".toList]⟩ ("1234567890".toList)
      (ReachableRecord.make ("John".toList)) (by decide))
    ("1234567890".toList) (by decide)

/-- Claim C10, the frame properties: the record mutators never change
the record's name, `add_record` leaves the lookup of every other name
unchanged, and `delete` leaves the lookup of every other name
unchanged. -/
theorem C10_frame_properties (r : Record) (p oldPhone newPhone q n : PyStr)
    (b : AddressBook) (rec : Record) :
    (∀ r', r.addPhone p = .ok r' → r'.name = r.name) ∧
    ((r.removePhone p).name = r.name) ∧
    (∀ r', r.editPhone oldPhone newPhone = .ok r' → r'.name = r.name) ∧
    (q ≠ rec.name → (b.addRecord rec).find q = b.find q) ∧
    (q ≠ n → (b.delete n).find q = b.find q) := by
  refine ⟨?_, ?_, ?_, ?_, ?_⟩
  · intro r' h
    obtain ⟨-, rfl⟩ := addPhone_ok h
    rfl
  · unfold Record.removePhone
    split <;> rfl
  · intro r' h
    obtain ⟨-, -, rfl⟩ := editPhone_ok h
    rfl
  · intro hq
    show ((dictSet b.data rec.name rec).find? fun e => e.1 == q).map Prod.snd
      = (b.data.find? fun e => e.1 == q).map Prod.snd
    unfold dictSet
    by_cases hs : (b.data.find? fun e => e.1 == rec.name).isSome = true
    · rw [if_pos hs, find_beq_map_other b.data rec.name q rec hq]
    · rw [if_neg hs, List.find?_append]
      have hsingle : ([(rec.name, rec)].find? fun e => e.1 == q) = none := by
        rw [List.find?_eq_none]
        intro x hx
        rw [List.mem_singleton.mp hx]
        simpa using Ne.symm hq
      rw [hsingle, Option.or_none]
  · intro hq
    unfold AddressBook.delete
    split
    · show ((b.data.filter fun e => decide (e.1 ≠ n)).find?
          fun e => e.1 == q).map Prod.snd
        = (b.data.find? fun e => e.1 == q).map Prod.snd
      rw [find_beq_filter_other b.data n q hq]
    · rfl

/-- Witness for C10: concrete instances of every frame property at
John's and Jane's records. -/
theorem C10_frame_properties_witness :
    (∀ r', Record.addPhone ⟨"John".toList, []⟩ ("1234567890".toList) = .ok r'
      → r'.name = "John".toList) ∧
    ((Record.removePhone ⟨"John".toList, []⟩ ("1234567890".toList)).name
      = "John".toList) ∧
    (∀ r', Record.editPhone ⟨"John".toList, []⟩ ("1234567890".toList)
        ("1112223333".toList) = .ok r' → r'.name = "John".toList) ∧
    (("John".toList ≠ "Jane".toList) →
      (AddressBook.addRecord ⟨[]⟩ ⟨"Jane".toList, []⟩).find ("John".toList)
        = AddressBook.find ⟨[]⟩ ("John".toList)) ∧
    (("John".toList ≠ "Jane".toList) →
      (AddressBook.delete ⟨[]⟩ ("Jane".toList)).find ("John".toList)
        = AddressBook.find ⟨[]⟩ ("John".toList)) :=
  C10_frame_properties ⟨"John".toList, []⟩ ("1234567890".toList)
    ("1234567890".toList) ("1112223333".toList) ("John".toList)
    ("Jane".toList) ⟨[]⟩ ⟨"Jane".toList, []⟩

end Task1
